import Mathlib

/-!
Verification development for the sublime-music filesystem caching adapter
(src/sublime/adapters/filesystem/adapter.py) and the search-result delivery
path of the main window (src/sublime/ui/main.py).

The peewee models (models.py), util.params_hash and the CachingAdapter base
class are not part of the provided sources; their shape is modelled from the
spec (sections 3 and 6): a CacheInfo table keyed by (cache_key, params_hash),
entity tables keyed by their stable identifiers, and a deterministic
fingerprint of an ordered parameter tuple.  The fingerprint is modelled as the
parameter tuple itself, which is deterministic and injective.

The database is modelled as lists of rows; an upsert (peewee get_or_create
followed by field-by-field setattr/save, or INSERT ... ON CONFLICT REPLACE)
replaces every row with the matching key, or appends the new row.  The
`with self.db_write_lock, models.database.atomic():` wrappers are modelled by
running the inner function on the store and discarding its partial result when
it fails (transaction rollback).
-/

namespace SublimeFS

/-- Upsert a row into a table: replace every row carrying the same key, or
append the row when the key is absent.  Models both peewee
get_or_create-then-save and INSERT ... ON CONFLICT REPLACE. -/
def upsertBy {α κ : Type} [BEq κ] (key : α → κ) (x : α) (l : List α) : List α :=
  if l.any (fun y => key y == key x) then
    l.map (fun y => if key y == key x then x else y)
  else
    l ++ [x]

/-- Apply a sequence of upserts left to right (models insert_many with
ON CONFLICT REPLACE, and a loop of per-row upserts). -/
def applyUpserts {α κ : Type} [BEq κ] (key : α → κ) (xs : List α) (l : List α) : List α :=
  xs.foldl (fun acc x => upsertBy key x acc) l

/-- Modelled from the spec: util.params_hash, a deterministic hash over an
ordered parameter tuple ("Same parameters must always hash identically");
modelled as the parameter tuple itself (an injective encoding). -/
def params_hash (params : List String) : List String := params

abbrev ParamsHash := List String

/-- The cache keys used by the filesystem adapter (CachingAdapter.CachedDataKey;
the base class is not in the provided sources, the constructors are those the
adapter code uses). -/
inductive CachedDataKey
  | PLAYLISTS
  | PLAYLIST_DETAILS
  | COVER_ART_FILE
  | SONG_FILE
  | SONG_DETAILS
  | GENRES
deriving DecidableEq, Repr

/-- Modelled from the spec: the CacheInfo table,
`CacheInfo(cache_key, params_hash, last_ingestion_time)`, one row per distinct
(operation, parameter-tuple). -/
structure CacheInfoRow where
  cache_key : CachedDataKey
  params_hash : ParamsHash
  last_ingestion_time : Nat
deriving DecidableEq, Repr

/-- The unique key of a CacheInfo row. -/
def ciKey (r : CacheInfoRow) : CachedDataKey × ParamsHash :=
  (r.cache_key, r.params_hash)

-- API objects (sublime.adapters.api_objects), restricted to the fields the
-- adapter code reads.
structure ApiGenre where
  name : String
deriving DecidableEq, Repr

structure ApiAlbum where
  id : String
  name : String
deriving DecidableEq, Repr

structure ApiArtist where
  id : String
  name : String
deriving DecidableEq, Repr

structure ApiDirectory where
  id : String
  name : String
deriving DecidableEq, Repr

structure ApiSong where
  id : String
  title : String
  path : String
  cover_art : Option String
  album : Option ApiAlbum
  artist : Option ApiArtist
  genre : Option ApiGenre
  parent : Option ApiDirectory
deriving DecidableEq, Repr

structure ApiPlaylist where
  id : String
  name : String
  cover_art : Option String
deriving DecidableEq, Repr

structure ApiPlaylistDetails where
  id : String
  name : String
  cover_art : Option String
  songs : List ApiSong
deriving DecidableEq, Repr

-- Modelled from the spec: the entity tables (models.py is not in the provided
-- sources); foreign keys are stored by identifier.
structure GenreRow where
  name : String
deriving DecidableEq, Repr

structure AlbumRow where
  id : String
  name : String
deriving DecidableEq, Repr

structure ArtistRow where
  id : String
  name : String
deriving DecidableEq, Repr

structure DirectoryRow where
  id : String
  name : String
deriving DecidableEq, Repr

structure SongRow where
  id : String
  title : String
  path : String
  cover_art : Option String
  album : Option String
  artist : Option String
  genre : Option String
  parent : Option String
deriving DecidableEq, Repr

structure PlaylistRow where
  id : String
  name : String
  cover_art : Option String
  songs : List String
deriving DecidableEq, Repr

/-- The persisted state of the filesystem adapter: the entity tables and the
CacheInfo table of cache.db, plus the blob directories on disk (cover-art
files keyed by params-hash-derived filename, music files keyed by the song's
relative path). -/
@[ext]
structure Store where
  cacheInfo : List CacheInfoRow
  songs : List SongRow
  albums : List AlbumRow
  artists : List ArtistRow
  genres : List GenreRow
  directories : List DirectoryRow
  playlists : List PlaylistRow
  coverArtFiles : List (ParamsHash × String)
  musicFiles : List (String × String)
deriving DecidableEq, Repr

def emptyStore : Store := ⟨[], [], [], [], [], [], [], [], []⟩

/-- models.CacheInfo.get_or_none(cache_key == k, params_hash == h). -/
def CacheInfo.get_or_none (s : Store) (k : CachedDataKey) (h : ParamsHash) :
    Option CacheInfoRow :=
  s.cacheInfo.find? (fun r => ciKey r == (k, h))

-- Row conversions: the field snapshot stored for an ingested API object.
def AlbumRow.ofApi (a : ApiAlbum) : AlbumRow := ⟨a.id, a.name⟩

def ArtistRow.ofApi (a : ApiArtist) : ArtistRow := ⟨a.id, a.name⟩

def GenreRow.ofApi (g : ApiGenre) : GenreRow := ⟨g.name⟩

def DirectoryRow.ofApi (d : ApiDirectory) : DirectoryRow := ⟨d.id, d.name⟩

def SongRow.ofApi (a : ApiSong) : SongRow :=
  { id := a.id
    title := a.title
    path := a.path
    cover_art := a.cover_art
    album := a.album.map ApiAlbum.id
    artist := a.artist.map ApiArtist.id
    genre := a.genre.map ApiGenre.name
    parent := a.parent.map ApiDirectory.id }

/-- Row written by the PLAYLISTS ingestion (insert_many of asdict(API.Playlist)
with ON CONFLICT REPLACE: the replacement row has no songs column value). -/
def PlaylistRow.ofApi (p : ApiPlaylist) : PlaylistRow :=
  ⟨p.id, p.name, p.cover_art, []⟩

def PlaylistRow.ofApiDetails (pd : ApiPlaylistDetails) : PlaylistRow :=
  ⟨pd.id, pd.name, pd.cover_art, pd.songs.map ApiSong.id⟩

-- ================================================================
-- Data retrieval (FilesystemAdapter, adapter.py lines 74-203)
-- ================================================================

inductive SongCacheStatus
  | NOT_CACHED
  | CACHED
deriving DecidableEq, Repr

/-- FilesystemAdapter.get_cached_status (adapter.py lines 74-83). -/
def get_cached_status (s : Store) (song : ApiSong) : SongCacheStatus :=
  match s.songs.find? (fun r => r.id == song.id) with
  | none => .NOT_CACHED
  | some r =>
    if s.musicFiles.any (fun f => f.1 == r.path) then .CACHED
    else .NOT_CACHED

inductive SongDetailsResult
  | ok (song : Option SongRow)
  | cacheMiss (pdata : Option SongRow)
  | hardError
deriving DecidableEq, Repr

/-- FilesystemAdapter.get_song_details (adapter.py lines 172-191). -/
def get_song_details (is_cache : Bool) (s : Store) (song_id : String) :
    SongDetailsResult :=
  let song := s.songs.find? (fun r => r.id == song_id)
  if !is_cache then
    match song with
    | none => .hardError
    | some r => .ok (some r)
  else
    match CacheInfo.get_or_none s .SONG_DETAILS (params_hash [song_id]) with
    | none => .cacheMiss song
    | some _ => .ok song

inductive CoverArtUriResult
  | ok (uri : String)
  | cacheMiss (pdata : Option String)
  | hardError
deriving DecidableEq, Repr

/-- str(self.cover_art_dir.joinpath(params_hash)). -/
def cover_art_uri_str (h : ParamsHash) : String :=
  "cover_art/" ++ String.intercalate "," h

/-- FilesystemAdapter.get_cover_art_uri (adapter.py lines 118-141).
In the ground-truth branch the source tests `not cover_art_filename.exists`
without calling the method; a bound method object is always truthy, so the
guard is always False and the branch returns the path unconditionally. -/
def get_cover_art_uri (is_cache : Bool) (s : Store) (cover_art_id : String) :
    CoverArtUriResult :=
  let ph := params_hash [cover_art_id]
  if !is_cache then
    .ok (cover_art_uri_str ph)
  else if !(s.coverArtFiles.any (fun f => f.1 == ph)) then
    .cacheMiss none
  else
    match CacheInfo.get_or_none s .COVER_ART_FILE ph with
    | none => .cacheMiss (some (cover_art_uri_str ph))
    | some _ => .ok (cover_art_uri_str ph)

-- ================================================================
-- Data ingestion (adapter.py lines 207-366)
-- ================================================================

/-- The payload of ingest_new_data; in Python `data` is dynamically typed and
interpreted according to data_key (for the two blob keys, `data` is a tempfile
whose content is copied, modelled by the content itself). -/
inductive IngestData
  | playlists (ps : List ApiPlaylist)
  | playlistDetails (pd : ApiPlaylistDetails)
  | coverArtFile (content : String)
  | songFile (content : String)
  | songDetails (song : ApiSong)
  | genres (gs : List ApiGenre)
deriving DecidableEq, Repr

/-- Exceptions escaping _do_ingest_new_data / _do_invalidate_data /
_do_delete_data; any of them rolls the enclosing transaction back. -/
inductive StoreError
  | typeMismatch
  | songDoesNotExist (song_id : String)
  | missingParam
deriving DecidableEq, Repr

/-- ingest_song_data (adapter.py lines 306-325): transitively upsert the
embedded album / artist / genre / parent directory, then upsert the song. -/
def ingest_song_data (s : Store) (api : ApiSong) : Store :=
  let s := match api.album with
    | some al => { s with albums := upsertBy AlbumRow.id (AlbumRow.ofApi al) s.albums }
    | none => s
  let s := match api.artist with
    | some ar => { s with artists := upsertBy ArtistRow.id (ArtistRow.ofApi ar) s.artists }
    | none => s
  let s := match api.genre with
    | some g => { s with genres := upsertBy GenreRow.name (GenreRow.ofApi g) s.genres }
    | none => s
  let s := match api.parent with
    | some d => { s with directories := upsertBy DirectoryRow.id (DirectoryRow.ofApi d) s.directories }
    | none => s
  { s with songs := upsertBy SongRow.id (SongRow.ofApi api) s.songs }

/-- FilesystemAdapter._do_ingest_new_data (adapter.py lines 240-366). -/
def _do_ingest_new_data (data_key : CachedDataKey) (params : List String)
    (data : IngestData) (now : Nat) (s : Store) : Except StoreError Store :=
  let ph := params_hash params
  let s := { s with cacheInfo := upsertBy ciKey ⟨data_key, ph, now⟩ s.cacheInfo }
  match data_key, data with
  | .PLAYLISTS, .playlists ps =>
    let s := { s with
      playlists := applyUpserts PlaylistRow.id (ps.map PlaylistRow.ofApi) s.playlists }
    .ok { s with
      playlists := s.playlists.filter (fun r => ps.any (fun p => p.id == r.id)) }
  | .PLAYLIST_DETAILS, .playlistDetails pd =>
    let s := pd.songs.foldl ingest_song_data s
    .ok { s with
      playlists := upsertBy PlaylistRow.id (PlaylistRow.ofApiDetails pd) s.playlists }
  | .COVER_ART_FILE, .coverArtFile content =>
    .ok { s with coverArtFiles := upsertBy Prod.fst (ph, content) s.coverArtFiles }
  | .SONG_FILE, .songFile content =>
    match params with
    | [] => .error .missingParam
    | p0 :: _ =>
      match s.songs.find? (fun r => r.id == p0) with
      | none => .error (.songDoesNotExist p0)
      | some song =>
        .ok { s with musicFiles := upsertBy Prod.fst (song.path, content) s.musicFiles }
  | .SONG_DETAILS, .songDetails api => .ok (ingest_song_data s api)
  | .GENRES, .genres gs =>
    let s := { s with
      genres := applyUpserts GenreRow.name (gs.map GenreRow.ofApi) s.genres }
    .ok { s with
      genres := s.genres.filter (fun r => gs.any (fun g => g.name == r.name)) }
  | _, _ => .error .typeMismatch

/-- FilesystemAdapter.ingest_new_data (adapter.py lines 207-218): the inner
function runs under the write lock in one atomic transaction; an exception
rolls the transaction back, leaving the store unchanged. -/
def ingest_new_data (data_key : CachedDataKey) (params : List String)
    (data : IngestData) (now : Nat) (s : Store) : Store × Option StoreError :=
  match _do_ingest_new_data data_key params data now s with
  | .ok s' => (s', none)
  | .error e => (s, some e)

-- ================================================================
-- Invalidation and deletion (adapter.py lines 368-437)
-- ================================================================

/-- FilesystemAdapter._invalidate_cover_art (adapter.py lines 368-372). -/
def _invalidate_cover_art (cover_art_id : String) (s : Store) : Store :=
  { s with cacheInfo := s.cacheInfo.filter (fun r =>
      !(ciKey r == (CachedDataKey.COVER_ART_FILE, params_hash [cover_art_id]))) }

/-- FilesystemAdapter._do_invalidate_data (adapter.py lines 374-398): delete
the CacheInfo row for (data_key, fingerprint); for PLAYLIST_DETAILS and
SONG_FILE additionally invalidate the referenced cover art. -/
def _do_invalidate_data (data_key : CachedDataKey) (params : List String)
    (s : Store) : Except StoreError Store :=
  let s := { s with cacheInfo := s.cacheInfo.filter (fun r =>
      !(ciKey r == (data_key, params_hash params))) }
  match data_key with
  | .PLAYLIST_DETAILS =>
    match params with
    | [] => .error .missingParam
    | p0 :: _ =>
      match s.playlists.find? (fun r => r.id == p0) with
      | none => .ok s
      | some pl =>
        .ok (match pl.cover_art with
          | some ca => _invalidate_cover_art ca s
          | none => s)
  | .SONG_FILE =>
    match params with
    | [] => .error .missingParam
    | p0 :: _ =>
      match s.songs.find? (fun r => r.id == p0) with
      | none => .ok s
      | some song =>
        .ok (match song.cover_art with
          | some ca => _invalidate_cover_art ca s
          | none => s)
  | _ => .ok s

/-- FilesystemAdapter.invalidate_data (adapter.py lines 220-228), with the
transaction-rollback wrapper. -/
def invalidate_data (data_key : CachedDataKey) (params : List String)
    (s : Store) : Store × Option StoreError :=
  match _do_invalidate_data data_key params s with
  | .ok s' => (s', none)
  | .error e => (s, some e)

/-- delete_cover_art (adapter.py lines 409-413): unlink the cover-art file
and invalidate its CacheInfo.  The source guards the unlink with
`if cover_art_file := self.cover_art_dir.joinpath(...)`; a Path object is
always truthy, so the unlink is unconditional (missing_ok=True). -/
def delete_cover_art (cover_art_id : String) (s : Store) : Store :=
  let s := { s with coverArtFiles := s.coverArtFiles.filter (fun f =>
      !(f.1 == params_hash [cover_art_id])) }
  _invalidate_cover_art cover_art_id s

/-- FilesystemAdapter._do_delete_data (adapter.py lines 400-437). -/
def _do_delete_data (data_key : CachedDataKey) (params : List String)
    (s : Store) : Except StoreError Store :=
  let s := { s with cacheInfo := s.cacheInfo.filter (fun r =>
      !(ciKey r == (data_key, params_hash params))) }
  match data_key with
  | .PLAYLIST_DETAILS =>
    match params with
    | [] => .error .missingParam
    | p0 :: _ =>
      match s.playlists.find? (fun r => r.id == p0) with
      | none => .ok s
      | some pl =>
        let s := match pl.cover_art with
          | some ca => delete_cover_art ca s
          | none => s
        .ok { s with playlists := s.playlists.filter (fun r => !(r.id == p0)) }
  | .SONG_FILE =>
    match params with
    | [] => .error .missingParam
    | p0 :: _ =>
      match s.songs.find? (fun r => r.id == p0) with
      | none => .ok s
      | some song =>
        let s := { s with musicFiles := s.musicFiles.filter (fun f =>
            !(f.1 == song.path)) }
        .ok (match song.cover_art with
          | some ca => delete_cover_art ca s
          | none => s)
  | _ => .ok s

/-- FilesystemAdapter.delete_data (adapter.py lines 230-238), with the
transaction-rollback wrapper. -/
def delete_data (data_key : CachedDataKey) (params : List String)
    (s : Store) : Store × Option StoreError :=
  match _do_delete_data data_key params s with
  | .ok s' => (s', none)
  | .error e => (s, some e)

-- ================================================================
-- Search result delivery (ui/main.py lines 294-334)
-- ================================================================

/-- The window state touched by search_result_calback: the high-water mark of
completed searches, the rendered results, and the loading spinner. -/
structure SearchState where
  latest_returned_search_idx : Nat
  displayed : Option String
  loading : Bool
deriving DecidableEq, Repr

/-- One delivery: a search's sequence number, its result payload, and whether
this is the final chunk of that search's batch. -/
structure SearchEvent where
  idx : Nat
  result : String
  is_last_in_batch : Bool
deriving DecidableEq, Repr

/-- search_result_calback (ui/main.py lines 313-323): ignore slow returned
searches; on the final chunk stop the loading indicator and record the
sequence number; then render the result. -/
def search_result_calback (st : SearchState) (e : SearchEvent) : SearchState :=
  if e.idx < st.latest_returned_search_idx then st
  else
    let st := if e.is_last_in_batch then
        { st with loading := false, latest_returned_search_idx := e.idx }
      else st
    { st with displayed := some e.result }

/-- The deliveries are marshaled onto the single UI thread by GLib.idle_add
and processed in arrival order. -/
def run_search_events (st : SearchState) (es : List SearchEvent) : SearchState :=
  es.foldl search_result_calback st

-- ================================================================
-- Generic lemmas about upserts, finds and filters
-- ================================================================

theorem any_eq_false_of_find?_eq_none {α : Type} {p : α → Bool} {l : List α}
    (h : l.find? p = none) : l.any p = false := by
  rw [List.any_eq_false]
  intro y hy
  have := List.find?_eq_none.mp h y hy
  simpa using this

theorem upsertBy_of_any_eq_false {α κ : Type} [BEq κ] (key : α → κ)
    (x : α) (l : List α) (h : l.any (fun y => key y == key x) = false) :
    upsertBy key x l = l ++ [x] := by
  unfold upsertBy
  simp [h]

theorem find?_upsertBy_key {α κ : Type} [BEq κ] [LawfulBEq κ] (key : α → κ)
    (x : α) (k : κ) (l : List α) (hk : key x = k)
    (h : l.find? (fun y => key y == k) = none) :
    (upsertBy key x l).find? (fun y => key y == k) = some x := by
  have hany : l.any (fun y => key y == key x) = false := by
    rw [hk]
    exact any_eq_false_of_find?_eq_none h
  rw [upsertBy_of_any_eq_false key x l hany]
  rw [List.find?_append, h]
  simp [hk]

/-- Filtering with a predicate that every find?-match satisfies does not
change the result of find?. -/
theorem find?_filter_of_imp {α : Type} (p q : α → Bool) (l : List α)
    (h : ∀ a, p a = true → q a = true) :
    (l.filter q).find? p = l.find? p := by
  induction l with
  | nil => rfl
  | cons a l ih =>
    by_cases hp : p a = true
    · rw [List.filter_cons, h a hp]
      simp [List.find?_cons, hp, ih]
    · rw [List.filter_cons]
      by_cases hq : q a = true
      · simp only [hq, if_true]
        simp only [List.find?_cons, hp]
        simpa [hp] using ih
      · simp only [hq]
        simp only [Bool.false_eq_true, if_false]
        rw [ih]
        simp [List.find?_cons, hp]

/-- Filtering away exactly the find?-matches makes find? come up empty. -/
theorem find?_filter_of_excl {α : Type} (p q : α → Bool) (l : List α)
    (h : ∀ a, p a = true → q a = false) :
    (l.filter q).find? p = none := by
  rw [List.find?_eq_none]
  intro a ha
  have haq : q a = true := (List.mem_filter.mp ha).2
  intro hpa
  rw [h a hpa] at haq
  exact Bool.false_ne_true haq

-- Projections of ingest_song_data: the tables it does not touch.

theorem ingest_song_data_cacheInfo (s : Store) (api : ApiSong) :
    (ingest_song_data s api).cacheInfo = s.cacheInfo := by
  unfold ingest_song_data
  cases api.album <;> cases api.artist <;> cases api.genre <;> cases api.parent <;> rfl

theorem ingest_song_data_playlists (s : Store) (api : ApiSong) :
    (ingest_song_data s api).playlists = s.playlists := by
  unfold ingest_song_data
  cases api.album <;> cases api.artist <;> cases api.genre <;> cases api.parent <;> rfl

theorem ingest_song_data_coverArtFiles (s : Store) (api : ApiSong) :
    (ingest_song_data s api).coverArtFiles = s.coverArtFiles := by
  unfold ingest_song_data
  cases api.album <;> cases api.artist <;> cases api.genre <;> cases api.parent <;> rfl

theorem ingest_song_data_musicFiles (s : Store) (api : ApiSong) :
    (ingest_song_data s api).musicFiles = s.musicFiles := by
  unfold ingest_song_data
  cases api.album <;> cases api.artist <;> cases api.genre <;> cases api.parent <;> rfl

theorem ingest_song_data_songs (s : Store) (api : ApiSong) :
    (ingest_song_data s api).songs
      = upsertBy SongRow.id (SongRow.ofApi api) s.songs := by
  unfold ingest_song_data
  cases api.album <;> cases api.artist <;> cases api.genre <;> cases api.parent <;> rfl

-- ================================================================
-- C1
-- ================================================================

/-- C1: in cache mode, on a store holding no data for a song id,
get_song_details raises CacheMiss with empty partial data; after
ingest_new_data(SONG_DETAILS, (id,), song) for that id, the same call returns
the ingested song and raises no CacheMiss. -/
theorem get_song_details_cache_miss_then_hit
    (s : Store) (id : String) (api : ApiSong) (t : Nat)
    (hsong : s.songs.find? (fun r => r.id == id) = none)
    (hci : CacheInfo.get_or_none s .SONG_DETAILS (params_hash [id]) = none)
    (hid : api.id = id) :
    get_song_details true s id = .cacheMiss none ∧
    (ingest_new_data .SONG_DETAILS [id] (.songDetails api) t s).2 = none ∧
    get_song_details true (ingest_new_data .SONG_DETAILS [id] (.songDetails api) t s).1 id
      = .ok (some (SongRow.ofApi api)) := by
  refine ⟨?_, ?_, ?_⟩
  · simp [get_song_details, hci, hsong]
  · simp [ingest_new_data, _do_ingest_new_data]
  · have hred : (ingest_new_data .SONG_DETAILS [id] (.songDetails api) t s).1
        = ingest_song_data
            { s with cacheInfo :=
                upsertBy ciKey ⟨.SONG_DETAILS, params_hash [id], t⟩ s.cacheInfo } api := by
      simp [ingest_new_data, _do_ingest_new_data]
    rw [hred]
    have hci' : CacheInfo.get_or_none
        (ingest_song_data
          { s with cacheInfo :=
              upsertBy ciKey ⟨.SONG_DETAILS, params_hash [id], t⟩ s.cacheInfo } api)
        .SONG_DETAILS (params_hash [id])
        = some ⟨.SONG_DETAILS, params_hash [id], t⟩ := by
      have hci0 : s.cacheInfo.find?
          (fun r => ciKey r == (CachedDataKey.SONG_DETAILS, params_hash [id])) = none := hci
      unfold CacheInfo.get_or_none
      rw [ingest_song_data_cacheInfo]
      exact find?_upsertBy_key ciKey ⟨.SONG_DETAILS, params_hash [id], t⟩
        (CachedDataKey.SONG_DETAILS, params_hash [id]) s.cacheInfo rfl hci0
    have hsongs : (ingest_song_data
        { s with cacheInfo :=
            upsertBy ciKey ⟨.SONG_DETAILS, params_hash [id], t⟩ s.cacheInfo } api).songs.find?
          (fun r => r.id == id) = some (SongRow.ofApi api) := by
      rw [ingest_song_data_songs]
      exact find?_upsertBy_key SongRow.id (SongRow.ofApi api) id s.songs hid hsong
    simp [get_song_details, hci', hsongs]

/-- C1 witness: the theorem applied at the empty store and a concrete song. -/
theorem get_song_details_cache_miss_then_hit_witness :
    get_song_details true emptyStore "s1" = .cacheMiss none ∧
    (ingest_new_data .SONG_DETAILS ["s1"]
        (.songDetails ⟨"s1", "Title", "dir/s1.mp3", none, none, none, none, none⟩)
        7 emptyStore).2 = none ∧
    get_song_details true
        (ingest_new_data .SONG_DETAILS ["s1"]
          (.songDetails ⟨"s1", "Title", "dir/s1.mp3", none, none, none, none, none⟩)
          7 emptyStore).1 "s1"
      = .ok (some (SongRow.ofApi ⟨"s1", "Title", "dir/s1.mp3", none, none, none, none, none⟩)) :=
  get_song_details_cache_miss_then_hit emptyStore "s1"
    ⟨"s1", "Title", "dir/s1.mp3", none, none, none, none, none⟩ 7
    (by rfl) (by rfl) (by rfl)

theorem any_eq_false_filter_excl {α : Type} (p q : α → Bool) (l : List α)
    (h : ∀ a, p a = true → q a = false) :
    (l.filter q).any p = false := by
  rw [List.any_eq_false]
  intro a ha hpa
  have haq : q a = true := (List.mem_filter.mp ha).2
  rw [h a hpa] at haq
  exact Bool.false_ne_true haq

-- ================================================================
-- C2
-- ================================================================

def c2SongRow : SongRow := ⟨"s1", "Title", "p1", none, none, none, none, none⟩

def c2ApiSong : ApiSong := ⟨"s1", "Title", "p1", none, none, none, none, none⟩

def c2store : Store :=
  { emptyStore with songs := [c2SongRow], musicFiles := [("p1", "audio-bytes")] }

/-- C2 counterexample: a store with a Song row whose audio file exists on disk
and no CacheInfo row at all; the claim demands NOT_CACHED, but
get_cached_status returns CACHED (it never consults CacheInfo). -/
theorem get_cached_status_no_cacheinfo_cex :
    CacheInfo.get_or_none c2store .SONG_FILE (params_hash ["s1"]) = none ∧
    c2store.musicFiles.any (fun f => f.1 == c2SongRow.path) = true ∧
    get_cached_status c2store c2ApiSong = .CACHED ∧
    get_cached_status c2store c2ApiSong ≠ .NOT_CACHED := by
  refine ⟨rfl, rfl, rfl, ?_⟩
  decide

/-- C2 amended: for every song whose Song row exists and whose audio file
exists on disk, get_cached_status returns CACHED even when no SONG_FILE
CacheInfo row exists: the implementation never consults CacheInfo. -/
theorem get_cached_status_cached_despite_no_cacheinfo
    (s : Store) (song : ApiSong) (r : SongRow)
    (hfind : s.songs.find? (fun x => x.id == song.id) = some r)
    (hfile : s.musicFiles.any (fun f => f.1 == r.path) = true)
    (hci : CacheInfo.get_or_none s .SONG_FILE (params_hash [song.id]) = none) :
    get_cached_status s song = .CACHED := by
  simp [get_cached_status, hfind, hfile]

/-- C2 witness: the amended theorem applied at the concrete store. -/
theorem get_cached_status_cached_despite_no_cacheinfo_witness :
    get_cached_status c2store c2ApiSong = .CACHED :=
  get_cached_status_cached_despite_no_cacheinfo c2store c2ApiSong c2SongRow
    (by rfl) (by rfl) (by rfl)

-- ================================================================
-- C5
-- ================================================================

def c5SongRow : SongRow := ⟨"s1", "Title", "p1", some "c1", none, none, none, none⟩

def c5store : Store :=
  { emptyStore with
    songs := [c5SongRow]
    cacheInfo := [⟨.SONG_DETAILS, ["s1"], 0⟩, ⟨.COVER_ART_FILE, ["c1"], 0⟩] }

/-- C5 counterexample: a stored song with a cover_art reference whose
SONG_DETAILS and COVER_ART_FILE CacheInfo rows both exist; after
invalidate_data(SONG_DETAILS, ("s1",)) the COVER_ART_FILE CacheInfo row is
still present — the cover-art cascade only runs for the PLAYLIST_DETAILS and
SONG_FILE keys, not for SONG_DETAILS. -/
theorem invalidate_song_details_no_cover_art_cascade_cex :
    c5store.songs.find? (fun r => r.id == "s1") = some c5SongRow ∧
    c5SongRow.cover_art = some "c1" ∧
    (invalidate_data .SONG_DETAILS ["s1"] c5store).2 = none ∧
    CacheInfo.get_or_none (invalidate_data .SONG_DETAILS ["s1"] c5store).1
      .COVER_ART_FILE (params_hash ["c1"]) = some ⟨.COVER_ART_FILE, ["c1"], 0⟩ := by
  refine ⟨rfl, rfl, rfl, ?_⟩
  decide

/-- C5 amended: the cover-art cascade fires for the SONG_FILE key: for a
stored song with a cover_art reference, invalidate_data(SONG_FILE, (song_id,))
also deletes the COVER_ART_FILE CacheInfo row for that cover art, while the
cover-art file on disk is not deleted. -/
theorem invalidate_song_file_cascades_cover_art
    (s : Store) (id ca : String) (song : SongRow)
    (hfind : s.songs.find? (fun r => r.id == id) = some song)
    (hca : song.cover_art = some ca) :
    (invalidate_data .SONG_FILE [id] s).2 = none ∧
    CacheInfo.get_or_none (invalidate_data .SONG_FILE [id] s).1
      .COVER_ART_FILE (params_hash [ca]) = none ∧
    (invalidate_data .SONG_FILE [id] s).1.coverArtFiles = s.coverArtFiles := by
  have hred : invalidate_data .SONG_FILE [id] s
      = (_invalidate_cover_art ca
          { s with cacheInfo := s.cacheInfo.filter (fun r =>
              !(ciKey r == (CachedDataKey.SONG_FILE, params_hash [id]))) }, none) := by
    simp [invalidate_data, _do_invalidate_data, hfind, hca]
  rw [hred]
  refine ⟨rfl, ?_, rfl⟩
  unfold CacheInfo.get_or_none _invalidate_cover_art
  exact find?_filter_of_excl _ _ _ (by intro a h; simpa using h)

/-- C5 witness for the amended theorem: concrete song with cover art. -/
theorem invalidate_song_file_cascades_cover_art_witness :
    (invalidate_data .SONG_FILE ["s1"] c5store).2 = none ∧
    CacheInfo.get_or_none (invalidate_data .SONG_FILE ["s1"] c5store).1
      .COVER_ART_FILE (params_hash ["c1"]) = none ∧
    (invalidate_data .SONG_FILE ["s1"] c5store).1.coverArtFiles
      = c5store.coverArtFiles :=
  invalidate_song_file_cascades_cover_art c5store "s1" "c1" c5SongRow
    (by rfl) (by rfl)

-- ================================================================
-- C6
-- ================================================================

/-- C6: in ground-truth mode (is_cache false), get_cover_art_uri never raises,
even when no cover-art file exists on disk: the source's existence check
(adapter.py line 126) reads `not cover_art_filename.exists` without calling
the method, so the guard is always False and the path is returned for a store
holding no cover-art files at all. -/
theorem get_cover_art_uri_ground_truth_never_raises :
    emptyStore.coverArtFiles = [] ∧
    get_cover_art_uri false emptyStore "c1"
      = .ok (cover_art_uri_str (params_hash ["c1"])) :=
  ⟨rfl, rfl⟩

-- ================================================================
-- C7
-- ================================================================

def c7Song1 : SongRow := ⟨"s1", "T1", "p1", some "c1", none, none, none, none⟩

def c7Song2 : SongRow := ⟨"s2", "T2", "p2", some "c1", none, none, none, none⟩

def c7store : Store :=
  { emptyStore with
    songs := [c7Song1, c7Song2]
    coverArtFiles := [(["c1"], "img")]
    musicFiles := [("p1", "a1"), ("p2", "a2")]
    cacheInfo := [⟨.SONG_FILE, ["s1"], 0⟩, ⟨.SONG_FILE, ["s2"], 0⟩,
      ⟨.COVER_ART_FILE, ["c1"], 0⟩] }

/-- C7 counterexample: two stored songs share cover art "c1"; deleting song
"s1"'s SONG_FILE entry nevertheless deletes the shared cover-art file —
delete_cover_art has no shared-reference check. -/
theorem delete_song_file_shared_cover_art_cex :
    c7Song2 ∈ c7store.songs ∧
    c7Song2.cover_art = some "c1" ∧
    c7Song2.id ≠ "s1" ∧
    (delete_data .SONG_FILE ["s1"] c7store).1.coverArtFiles = [] := by
  refine ⟨by decide, rfl, by decide, ?_⟩
  decide

/-- C7 amended: delete_data(SONG_FILE, (song_id,)) deletes the song's
cover-art blob file unconditionally whenever the song has a cover_art
reference, even when another stored song references the same cover-art id. -/
theorem delete_song_file_deletes_cover_art_unconditionally
    (s : Store) (id ca : String) (song other : SongRow)
    (hfind : s.songs.find? (fun r => r.id == id) = some song)
    (hca : song.cover_art = some ca)
    (hother : other ∈ s.songs) (hoca : other.cover_art = some ca)
    (hne : other.id ≠ id) :
    (delete_data .SONG_FILE [id] s).1.coverArtFiles.any
      (fun f => f.1 == params_hash [ca]) = false := by
  have hred : delete_data .SONG_FILE [id] s
      = (delete_cover_art ca
          { s with
            cacheInfo := s.cacheInfo.filter (fun r =>
              !(ciKey r == (CachedDataKey.SONG_FILE, params_hash [id])))
            musicFiles := s.musicFiles.filter (fun f => !(f.1 == song.path)) }, none) := by
    simp [delete_data, _do_delete_data, hfind, hca]
  rw [hred]
  unfold delete_cover_art _invalidate_cover_art
  exact any_eq_false_filter_excl _ _ _ (by intro a h; simpa using h)

/-- C7 witness for the amended theorem: the shared-cover-art store. -/
theorem delete_song_file_deletes_cover_art_unconditionally_witness :
    (delete_data .SONG_FILE ["s1"] c7store).1.coverArtFiles.any
      (fun f => f.1 == params_hash ["c1"]) = false :=
  delete_song_file_deletes_cover_art_unconditionally c7store "s1" "c1"
    c7Song1 c7Song2 (by rfl) (by rfl) (by decide) (by rfl) (by decide)

-- ================================================================
-- C9
-- ================================================================

def c9Song : SongRow := ⟨"s1", "Title", "p1", some "c1", none, none, none, none⟩

def c9store : Store :=
  { emptyStore with
    songs := [c9Song]
    cacheInfo := [⟨.SONG_FILE, ["s1"], 0⟩, ⟨.SONG_DETAILS, ["s1"], 0⟩,
      ⟨.COVER_ART_FILE, ["c1"], 0⟩]
    musicFiles := [("p1", "audio")]
    coverArtFiles := [(["c1"], "img")] }

/-- C9 counterexample: delete_data(SONG_FILE, ("s1",)) does not remove *only*
the SONG_FILE CacheInfo row: the COVER_ART_FILE CacheInfo row of the song's
cover art is removed as well. -/
theorem delete_song_file_cover_art_cacheinfo_cex :
    CacheInfo.get_or_none c9store .COVER_ART_FILE (params_hash ["c1"])
      = some ⟨.COVER_ART_FILE, ["c1"], 0⟩ ∧
    CacheInfo.get_or_none (delete_data .SONG_FILE ["s1"] c9store).1
      .COVER_ART_FILE (params_hash ["c1"]) = none := by
  refine ⟨rfl, ?_⟩
  decide

/-- C9 amended: delete_data(SONG_FILE, (song_id,)) removes the SONG_FILE
CacheInfo row, the audio and cover-art blob files, and the COVER_ART_FILE
CacheInfo row of the song's cover art; the Song row, the album / artist /
genre / directory tables, and the SONG_DETAILS CacheInfo row are left
unchanged, so a subsequent cache-mode get_song_details(song_id) returns the
song without CacheMiss. -/
theorem delete_song_file_frame
    (s : Store) (id ca : String) (song : SongRow) (ci : CacheInfoRow)
    (hfind : s.songs.find? (fun r => r.id == id) = some song)
    (hca : song.cover_art = some ca)
    (hci : CacheInfo.get_or_none s .SONG_DETAILS (params_hash [id]) = some ci) :
    (delete_data .SONG_FILE [id] s).2 = none ∧
    (delete_data .SONG_FILE [id] s).1.songs = s.songs ∧
    (delete_data .SONG_FILE [id] s).1.albums = s.albums ∧
    (delete_data .SONG_FILE [id] s).1.artists = s.artists ∧
    (delete_data .SONG_FILE [id] s).1.genres = s.genres ∧
    (delete_data .SONG_FILE [id] s).1.directories = s.directories ∧
    (delete_data .SONG_FILE [id] s).1.playlists = s.playlists ∧
    CacheInfo.get_or_none (delete_data .SONG_FILE [id] s).1
      .SONG_FILE (params_hash [id]) = none ∧
    CacheInfo.get_or_none (delete_data .SONG_FILE [id] s).1
      .COVER_ART_FILE (params_hash [ca]) = none ∧
    CacheInfo.get_or_none (delete_data .SONG_FILE [id] s).1
      .SONG_DETAILS (params_hash [id]) = some ci ∧
    (delete_data .SONG_FILE [id] s).1.musicFiles
      = s.musicFiles.filter (fun f => !(f.1 == song.path)) ∧
    (delete_data .SONG_FILE [id] s).1.coverArtFiles
      = s.coverArtFiles.filter (fun f => !(f.1 == params_hash [ca])) ∧
    get_song_details true (delete_data .SONG_FILE [id] s).1 id = .ok (some song) := by
  have hred : delete_data .SONG_FILE [id] s
      = (delete_cover_art ca
          { s with
            cacheInfo := s.cacheInfo.filter (fun r =>
              !(ciKey r == (CachedDataKey.SONG_FILE, params_hash [id])))
            musicFiles := s.musicFiles.filter (fun f => !(f.1 == song.path)) }, none) := by
    simp [delete_data, _do_delete_data, hfind, hca]
  rw [hred]
  unfold delete_cover_art _invalidate_cover_art
  have hsf : CacheInfo.get_or_none
      ({ s with
          cacheInfo := (s.cacheInfo.filter (fun r =>
            !(ciKey r == (CachedDataKey.SONG_FILE, params_hash [id])))).filter (fun r =>
              !(ciKey r == (CachedDataKey.COVER_ART_FILE, params_hash [ca])))
          musicFiles := s.musicFiles.filter (fun f => !(f.1 == song.path))
          coverArtFiles := s.coverArtFiles.filter (fun f =>
            !(f.1 == params_hash [ca])) } : Store)
      .SONG_FILE (params_hash [id]) = none := by
    unfold CacheInfo.get_or_none
    rw [find?_filter_of_imp]
    · exact find?_filter_of_excl _ _ _ (by intro a h; simpa using h)
    · intro a h
      rw [beq_iff_eq] at h
      simp [h]
  have hcov : CacheInfo.get_or_none
      ({ s with
          cacheInfo := (s.cacheInfo.filter (fun r =>
            !(ciKey r == (CachedDataKey.SONG_FILE, params_hash [id])))).filter (fun r =>
              !(ciKey r == (CachedDataKey.COVER_ART_FILE, params_hash [ca])))
          musicFiles := s.musicFiles.filter (fun f => !(f.1 == song.path))
          coverArtFiles := s.coverArtFiles.filter (fun f =>
            !(f.1 == params_hash [ca])) } : Store)
      .COVER_ART_FILE (params_hash [ca]) = none := by
    unfold CacheInfo.get_or_none
    exact find?_filter_of_excl _ _ _ (by intro a h; simpa using h)
  have hsd : CacheInfo.get_or_none
      ({ s with
          cacheInfo := (s.cacheInfo.filter (fun r =>
            !(ciKey r == (CachedDataKey.SONG_FILE, params_hash [id])))).filter (fun r =>
              !(ciKey r == (CachedDataKey.COVER_ART_FILE, params_hash [ca])))
          musicFiles := s.musicFiles.filter (fun f => !(f.1 == song.path))
          coverArtFiles := s.coverArtFiles.filter (fun f =>
            !(f.1 == params_hash [ca])) } : Store)
      .SONG_DETAILS (params_hash [id]) = some ci := by
    unfold CacheInfo.get_or_none
    rw [find?_filter_of_imp, find?_filter_of_imp]
    · exact hci
    · intro a h
      rw [beq_iff_eq] at h
      simp [h]
    · intro a h
      rw [beq_iff_eq] at h
      simp [h]
  refine ⟨rfl, rfl, rfl, rfl, rfl, rfl, rfl, hsf, hcov, hsd, rfl, rfl, ?_⟩
  simp only [get_song_details]
  rw [hsd]
  simp [hfind]

/-- C9 witness for the amended theorem: the concrete deleted-song store. -/
theorem delete_song_file_frame_witness :
    (delete_data .SONG_FILE ["s1"] c9store).2 = none ∧
    get_song_details true (delete_data .SONG_FILE ["s1"] c9store).1 "s1"
      = .ok (some c9Song) := by
  have h := delete_song_file_frame c9store "s1" "c1" c9Song
    ⟨.SONG_DETAILS, ["s1"], 0⟩ (by rfl) (by rfl) (by rfl)
  exact ⟨h.1, h.2.2.2.2.2.2.2.2.2.2.2.2⟩

-- ================================================================
-- C10
-- ================================================================

/-- C10: ingest_new_data(SONG_FILE, (song_id,), path) while no Song row with
that id exists raises an error, and the transaction rollback leaves the store
unchanged: in particular the CacheInfo insert performed at the top of
_do_ingest_new_data is not committed. -/
theorem ingest_song_file_missing_song_rolls_back
    (s : Store) (id content : String) (t : Nat)
    (hnone : s.songs.find? (fun r => r.id == id) = none) :
    _do_ingest_new_data .SONG_FILE [id] (.songFile content) t s
      = .error (.songDoesNotExist id) ∧
    ingest_new_data .SONG_FILE [id] (.songFile content) t s
      = (s, some (.songDoesNotExist id)) := by
  have h1 : _do_ingest_new_data .SONG_FILE [id] (.songFile content) t s
      = .error (.songDoesNotExist id) := by
    simp [_do_ingest_new_data, hnone]
  exact ⟨h1, by simp [ingest_new_data, h1]⟩

/-- C10 witness: the empty store has no Song row for "s1". -/
theorem ingest_song_file_missing_song_rolls_back_witness :
    ingest_new_data .SONG_FILE ["s1"] (.songFile "bytes") 3 emptyStore
      = (emptyStore, some (.songDoesNotExist "s1")) :=
  (ingest_song_file_missing_song_rolls_back emptyStore "s1" "bytes" 3 (by rfl)).2

-- ================================================================
-- C8
-- ================================================================

theorem latest_le_calback (st : SearchState) (e : SearchEvent) :
    st.latest_returned_search_idx
      ≤ (search_result_calback st e).latest_returned_search_idx := by
  unfold search_result_calback
  by_cases h : e.idx < st.latest_returned_search_idx
  · simp [h]
  · by_cases hl : e.is_last_in_batch <;> simp [h, hl] <;> omega

theorem latest_le_run (es : List SearchEvent) (st : SearchState) :
    st.latest_returned_search_idx
      ≤ (run_search_events st es).latest_returned_search_idx := by
  induction es generalizing st with
  | nil => exact Nat.le_refl _
  | cons a es ih =>
    exact Nat.le_trans (latest_le_calback st a) (ih (search_result_calback st a))

/-- Once a search's final chunk has been processed, the high-water mark is at
least that search's sequence number forever after. -/
theorem le_latest_of_final_mem (es : List SearchEvent) (st : SearchState)
    (e' : SearchEvent) (hmem : e' ∈ es) (hlast : e'.is_last_in_batch = true) :
    e'.idx ≤ (run_search_events st es).latest_returned_search_idx := by
  induction es generalizing st with
  | nil => cases hmem
  | cons a es ih =>
    rcases List.mem_cons.mp hmem with rfl | hmem'
    · have hstep : e'.idx ≤ (search_result_calback st e').latest_returned_search_idx := by
        unfold search_result_calback
        by_cases h : e'.idx < st.latest_returned_search_idx
        · simp [h]
          omega
        · simp [h, hlast]
      exact Nat.le_trans hstep (latest_le_run es _)
    · exact ih (search_result_calback st a) hmem'

/-- C8: a delivery whose sequence number is strictly below some already
delivered final chunk's sequence number leaves the whole search UI state
unchanged (high-water mark, rendered results, loading spinner). -/
theorem stale_search_result_never_updates_ui
    (st : SearchState) (es : List SearchEvent) (e e' : SearchEvent)
    (hmem : e' ∈ es) (hlast : e'.is_last_in_batch = true)
    (hlt : e.idx < e'.idx) :
    search_result_calback (run_search_events st es) e = run_search_events st es := by
  have hle := le_latest_of_final_mem es st e' hmem hlast
  have hguard : e.idx < (run_search_events st es).latest_returned_search_idx :=
    Nat.lt_of_lt_of_le hlt hle
  unfold search_result_calback
  simp [hguard]

/-- C8 witness: searches 1, 2, 3 fire; 2 and 3 complete, then 1's final chunk
arrives last and changes nothing. -/
theorem stale_search_result_never_updates_ui_witness :
    search_result_calback
        (run_search_events ⟨0, none, false⟩ [⟨2, "r2", true⟩, ⟨3, "r3", true⟩])
        ⟨1, "r1", true⟩
      = run_search_events ⟨0, none, false⟩ [⟨2, "r2", true⟩, ⟨3, "r3", true⟩] :=
  stale_search_result_never_updates_ui ⟨0, none, false⟩
    [⟨2, "r2", true⟩, ⟨3, "r3", true⟩] ⟨1, "r1", true⟩ ⟨3, "r3", true⟩
    (by decide) (by rfl) (by decide)

-- ================================================================
-- Upsert algebra (towards C3: idempotent ingestion)
-- ================================================================

theorem any_congr_mem {α : Type} {p q : α → Bool} {l : List α}
    (h : ∀ a ∈ l, p a = q a) : l.any p = l.any q := by
  induction l with
  | nil => rfl
  | cons a l ih =>
    simp only [List.any_cons]
    rw [h a (List.mem_cons_self a l), ih (fun b hb => h b (List.mem_cons_of_mem a hb))]

theorem upsertBy_pos {α κ : Type} [BEq κ] (key : α → κ) (x : α) (l : List α)
    (hp : l.any (fun y => key y == key x) = true) :
    upsertBy key x l = l.map (fun y => if key y == key x then x else y) := by
  unfold upsertBy
  rw [if_pos hp]

theorem key_upsert_fun {α κ : Type} [BEq κ] [LawfulBEq κ] (key : α → κ)
    (x y : α) : key (if key y == key x then x else y) = key y := by
  cases h : (key y == key x) with
  | true =>
    simp only [h, if_true]
    exact (beq_iff_eq.mp h).symm
  | false => simp [h]

theorem any_map_key {α κ : Type} [BEq κ] [LawfulBEq κ] (key : α → κ)
    (x : α) (l : List α) (k : κ) :
    (l.map (fun y => if key y == key x then x else y)).any (fun y => key y == k)
      = l.any (fun y => key y == k) := by
  rw [List.any_map]
  refine any_congr_mem ?_
  intro a _
  simp only [Function.comp_apply]
  rw [key_upsert_fun key x a]

theorem any_key_upsertBy {α κ : Type} [BEq κ] [LawfulBEq κ] (key : α → κ)
    (x : α) (l : List α) (k : κ) :
    (upsertBy key x l).any (fun y => key y == k)
      = (l.any (fun y => key y == k) || (key x == k)) := by
  cases hp : l.any (fun y => key y == key x) with
  | true =>
    rw [upsertBy_pos key x l hp, any_map_key]
    cases hk : (key x == k) with
    | true =>
      obtain ⟨y, hy, hyx⟩ := List.any_eq_true.mp hp
      have hany : l.any (fun y => key y == k) = true := by
        refine List.any_eq_true.mpr ⟨y, hy, ?_⟩
        rw [beq_iff_eq] at hyx ⊢
        rw [hyx]
        exact beq_iff_eq.mp hk
      simp [hany]
    | false => simp
  | false =>
    rw [upsertBy_of_any_eq_false key x l hp, List.any_append]
    simp

theorem map_upsert_id {α κ : Type} [BEq κ] [LawfulBEq κ] (key : α → κ)
    (x : α) (l : List α) (h : l.any (fun y => key y == key x) = false) :
    l.map (fun y => if key y == key x then x else y) = l := by
  have h' := List.any_eq_false.mp h
  calc l.map (fun y => if key y == key x then x else y)
      = l.map id := by
        refine List.map_congr_left ?_
        intro a ha
        have hf : (key a == key x) = false := by
          cases hc : (key a == key x) with
          | false => rfl
          | true => exact absurd hc (h' a ha)
        simp [hf]
    _ = l := List.map_id l

/-- Upserting twice with the same key equals upserting the second value once. -/
theorem upsertBy_same_key {α κ : Type} [BEq κ] [LawfulBEq κ] (key : α → κ)
    (x₁ x₂ : α) (l : List α) (hk : key x₁ = key x₂) :
    upsertBy key x₂ (upsertBy key x₁ l) = upsertBy key x₂ l := by
  have hbx : (key x₁ == key x₂) = true := beq_iff_eq.mpr hk
  cases hb : l.any (fun y => key y == key x₁) with
  | true =>
    have hb₂ : l.any (fun y => key y == key x₂) = true := by rw [← hk]; exact hb
    rw [upsertBy_pos key x₁ l hb]
    rw [upsertBy_pos key x₂ _ (by rw [any_map_key]; exact hb₂)]
    rw [upsertBy_pos key x₂ l hb₂]
    rw [List.map_map]
    refine List.map_congr_left ?_
    intro a _
    simp only [Function.comp_apply]
    cases ha : (key a == key x₁) with
    | true =>
      have ha₂ : (key a == key x₂) = true := by
        rw [beq_iff_eq] at ha ⊢
        rw [ha]
        exact hk
      simp [ha, ha₂, hbx]
    | false =>
      have ha₂ : (key a == key x₂) = false := by
        cases hc : (key a == key x₂) with
        | false => rfl
        | true =>
          rw [beq_iff_eq] at hc
          rw [← hk] at hc
          rw [(beq_iff_eq.mpr hc : (key a == key x₁) = true)] at ha
          exact absurd ha (by simp)
      simp [ha, ha₂]
  | false =>
    have hb₂ : l.any (fun y => key y == key x₂) = false := by rw [← hk]; exact hb
    rw [upsertBy_of_any_eq_false key x₁ l hb]
    rw [upsertBy_of_any_eq_false key x₂ l hb₂]
    have hpres : (l ++ [x₁]).any (fun y => key y == key x₂) = true := by
      rw [List.any_append]
      simp [hbx]
    rw [upsertBy_pos key x₂ _ hpres, List.map_append]
    have h1 : l.map (fun y => if key y == key x₂ then x₂ else y) = l :=
      map_upsert_id key x₂ l hb₂
    have h2 : [x₁].map (fun y => if key y == key x₂ then x₂ else y) = [x₂] := by
      simp [hbx]
    rw [h1, h2]

theorem applyUpserts_nil {α κ : Type} [BEq κ] (key : α → κ) (l : List α) :
    applyUpserts key [] l = l := rfl

theorem applyUpserts_cons {α κ : Type} [BEq κ] (key : α → κ) (x : α)
    (xs : List α) (l : List α) :
    applyUpserts key (x :: xs) l = applyUpserts key xs (upsertBy key x l) := rfl

theorem applyUpserts_append {α κ : Type} [BEq κ] (key : α → κ)
    (xs ys : List α) (l : List α) :
    applyUpserts key (xs ++ ys) l = applyUpserts key ys (applyUpserts key xs l) := by
  unfold applyUpserts
  exact List.foldl_append ..

theorem any_key_applyUpserts {α κ : Type} [BEq κ] [LawfulBEq κ] (key : α → κ)
    (xs : List α) (l : List α) (k : κ) :
    (applyUpserts key xs l).any (fun y => key y == k)
      = (l.any (fun y => key y == k) || xs.any (fun x => key x == k)) := by
  induction xs generalizing l with
  | nil => simp [applyUpserts_nil]
  | cons x xs ih =>
    rw [applyUpserts_cons, ih, any_key_upsertBy]
    simp [Bool.or_assoc]

/-- Two upserts on distinct keys commute when the first key is already
present (so that no append-position ambiguity arises). -/
theorem upsertBy_comm_of_present {α κ : Type} [BEq κ] [LawfulBEq κ]
    (key : α → κ) (x z : α) (l : List α) (hne : key z ≠ key x)
    (hpres : l.any (fun y => key y == key x) = true) :
    upsertBy key x (upsertBy key z l) = upsertBy key z (upsertBy key x l) := by
  have hbne : (key z == key x) = false := by
    cases hc : (key z == key x) with
    | false => rfl
    | true => exact absurd (beq_iff_eq.mp hc) hne
  have hbne' : (key x == key z) = false := by
    cases hc : (key x == key z) with
    | false => rfl
    | true => exact absurd (beq_iff_eq.mp hc).symm hne
  have hresx : (upsertBy key z l).any (fun y => key y == key x) = true := by
    rw [any_key_upsertBy]
    simp [hpres]
  have hresx' : (upsertBy key x l).any (fun y => key y == key x) = true := by
    rw [any_key_upsertBy]
    simp [hpres]
  cases hz : l.any (fun y => key y == key z) with
  | true =>
    -- both keys present: both upserts are maps, and the maps commute
    have hz' : (upsertBy key x l).any (fun y => key y == key z) = true := by
      rw [any_key_upsertBy]
      simp [hz]
    rw [upsertBy_pos key z l hz, upsertBy_pos key x _ (by rw [any_map_key]; exact hpres)]
    rw [upsertBy_pos key x l hpres, upsertBy_pos key z _ (by rw [any_map_key]; exact hz)]
    rw [List.map_map, List.map_map]
    refine List.map_congr_left ?_
    intro a _
    simp only [Function.comp_apply]
    cases haz : (key a == key z) with
    | true =>
      have hax : (key a == key x) = false := by
        cases hc : (key a == key x) with
        | false => rfl
        | true =>
          rw [beq_iff_eq] at haz hc
          exact absurd (haz ▸ hc : key z = key x) hne
      simp [haz, hax, hbne]
    | false =>
      cases hax : (key a == key x) with
      | true => simp [haz, hax, hbne']
      | false => simp [haz, hax]
  | false =>
    -- key z absent both before and after the x-upsert: z is appended
    have hz' : (upsertBy key x l).any (fun y => key y == key z) = false := by
      rw [any_key_upsertBy]
      simp [hz, hbne']
    rw [upsertBy_of_any_eq_false key z l hz]
    rw [upsertBy_of_any_eq_false key z _ hz']
    have happ : (l ++ [z]).any (fun y => key y == key x) = true := by
      rw [List.any_append]
      simp [hpres]
    rw [upsertBy_pos key x _ happ, upsertBy_pos key x l hpres, List.map_append]
    have hzid : [z].map (fun y => if key y == key x then x else y) = [z] := by
      simp [hbne]
    rw [hzid]

/-- A single upsert of a present key commutes with a batch of upserts none of
which writes that key. -/
theorem upsertBy_applyUpserts_comm {α κ : Type} [BEq κ] [LawfulBEq κ]
    (key : α → κ) (x : α) (xs : List α) (l : List α)
    (hdisj : ∀ z ∈ xs, key z ≠ key x)
    (hpres : l.any (fun y => key y == key x) = true) :
    upsertBy key x (applyUpserts key xs l)
      = applyUpserts key xs (upsertBy key x l) := by
  induction xs generalizing l with
  | nil => simp [applyUpserts_nil]
  | cons z xs ih =>
    rw [applyUpserts_cons, applyUpserts_cons]
    have hz : key z ≠ key x := hdisj z (List.mem_cons_self z xs)
    have hpres' : (upsertBy key z l).any (fun y => key y == key x) = true := by
      rw [any_key_upsertBy]
      simp [hpres]
    rw [ih (upsertBy key z l) (fun w hw => hdisj w (List.mem_cons_of_mem z hw)) hpres']
    rw [upsertBy_comm_of_present key x z l hz hpres]
/-- Two tables agree on keys everywhere and on values outside key k. -/
def RelK {α κ : Type} (key : α → κ) (k : κ) (X X' : List α) : Prop :=
  List.Forall₂ (fun a b => key a = key b ∧ (key a ≠ k → a = b)) X X'

theorem relK_any {α κ : Type} [BEq κ] (key : α → κ) (k : κ) {X X' : List α}
    (h : RelK key k X X') (k' : κ) :
    X.any (fun y => key y == k') = X'.any (fun y => key y == k') := by
  induction h with
  | nil => rfl
  | cons hab htl ih =>
    simp only [List.any_cons]
    rw [hab.1, ih]

theorem relK_eq_of_no_key {α κ : Type} [BEq κ] [LawfulBEq κ] (key : α → κ)
    (k : κ) {X X' : List α} (h : RelK key k X X')
    (hnone : X.any (fun y => key y == k) = false) : X = X' := by
  induction h with
  | nil => rfl
  | @cons a b l l' hab htl ih =>
    simp only [List.any_cons, Bool.or_eq_false_iff] at hnone
    have hak : key a ≠ k := by
      intro he
      rw [beq_iff_eq.mpr he] at hnone
      exact Bool.noConfusion hnone.1
    rw [hab.2 hak, ih hnone.2]

theorem forall₂_map_map {α : Type} {R : α → α → Prop} (f : α → α)
    {X X' : List α} (h : List.Forall₂ R X X')
    (hstep : ∀ a b, R a b → R (f a) (f b)) :
    List.Forall₂ R (X.map f) (X'.map f) := by
  induction h with
  | nil => exact .nil
  | cons hab htl ih => exact .cons (hstep _ _ hab) ih

theorem forall₂_append_single {α : Type} {R : α → α → Prop}
    {X X' : List α} (h : List.Forall₂ R X X') {z : α} (hz : R z z) :
    List.Forall₂ R (X ++ [z]) (X' ++ [z]) := by
  induction h with
  | nil => exact .cons hz .nil
  | cons hab htl ih => exact .cons hab ih

/-- The relation survives any further upsert. -/
theorem relK_upsert {α κ : Type} [BEq κ] [LawfulBEq κ] (key : α → κ) (k : κ)
    (z : α) {X X' : List α} (h : RelK key k X X') :
    RelK key k (upsertBy key z X) (upsertBy key z X') := by
  have hany := relK_any key k h (key z)
  cases hp : X.any (fun y => key y == key z) with
  | true =>
    have hp' : X'.any (fun y => key y == key z) = true := by rw [← hany]; exact hp
    rw [upsertBy_pos key z X hp, upsertBy_pos key z X' hp']
    refine forall₂_map_map _ h ?_
    intro a b hab
    refine ⟨?_, ?_⟩
    · rw [key_upsert_fun key z a, key_upsert_fun key z b, hab.1]
    · rw [key_upsert_fun key z a]
      intro hak
      rw [hab.2 hak]
  | false =>
    have hp' : X'.any (fun y => key y == key z) = false := by rw [← hany]; exact hp
    rw [upsertBy_of_any_eq_false key z X hp, upsertBy_of_any_eq_false key z X' hp']
    exact forall₂_append_single h ⟨rfl, fun _ => rfl⟩

theorem forall₂_map_eq {α : Type} {R : α → α → Prop} (f g : α → α)
    {X X' : List α} (h : List.Forall₂ R X X')
    (hstep : ∀ a b, R a b → f a = g b) :
    X.map f = X'.map g := by
  induction h with
  | nil => rfl
  | cons hab htl ih =>
    simp only [List.map_cons]
    rw [hstep _ _ hab, ih]

/-- An upsert that writes exactly key k collapses the relation to equality. -/
theorem relK_upsert_eq_key {α κ : Type} [BEq κ] [LawfulBEq κ] (key : α → κ)
    (k : κ) (z : α) (hzk : key z = k) {X X' : List α} (h : RelK key k X X') :
    upsertBy key z X = upsertBy key z X' := by
  have hany := relK_any key k h (key z)
  cases hp : X.any (fun y => key y == key z) with
  | true =>
    have hp' : X'.any (fun y => key y == key z) = true := by rw [← hany]; exact hp
    rw [upsertBy_pos key z X hp, upsertBy_pos key z X' hp']
    refine forall₂_map_eq _ _ h ?_
    intro a b hab
    cases ha : (key a == key z) with
    | true =>
      have hb : (key b == key z) = true := by rw [← hab.1]; exact ha
      simp [ha, hb]
    | false =>
      have hb : (key b == key z) = false := by rw [← hab.1]; exact ha
      have hak : key a ≠ k := by
        intro he
        rw [(beq_iff_eq.mpr (he.trans hzk.symm) : (key a == key z) = true)] at ha
        exact Bool.noConfusion ha
      simp only [ha, hb]
      simp [hab.2 hak]
  | false =>
    have hX : X = X' := by
      refine relK_eq_of_no_key key k h ?_
      rw [← hzk]
      exact hp
    rw [hX]

/-- A batch containing a writer of key k maps related tables to equal tables. -/
theorem relK_applyUpserts_eq {α κ : Type} [BEq κ] [LawfulBEq κ] (key : α → κ)
    (k : κ) (xs : List α) (hw : ∃ z ∈ xs, key z = k) {X X' : List α}
    (h : RelK key k X X') : applyUpserts key xs X = applyUpserts key xs X' := by
  induction xs generalizing X X' with
  | nil =>
    obtain ⟨z, hz, _⟩ := hw
    cases hz
  | cons z xs ih =>
    rw [applyUpserts_cons, applyUpserts_cons]
    by_cases hzk : key z = k
    · rw [relK_upsert_eq_key key k z hzk h]
    · obtain ⟨w, hwmem, hwk⟩ := hw
      have hw' : ∃ w ∈ xs, key w = k := by
        rcases List.mem_cons.mp hwmem with rfl | hmem
        · exact absurd hwk hzk
        · exact ⟨w, hmem, hwk⟩
      exact ih hw' (relK_upsert key k z h)

/-- Re-upserting a present key only rewrites rows of that key. -/
theorem relK_map_self {α κ : Type} [BEq κ] [LawfulBEq κ] (key : α → κ)
    (x : α) (l : List α) :
    RelK key (key x) (l.map (fun y => if key y == key x then x else y)) l := by
  induction l with
  | nil => exact .nil
  | cons a l ih =>
    refine .cons ⟨key_upsert_fun key x a, ?_⟩ ih
    rw [key_upsert_fun key x a]
    intro hne
    have hf : (key a == key x) = false := by
      cases hc : (key a == key x) with
      | false => rfl
      | true => exact absurd (beq_iff_eq.mp hc) hne
    simp [hf]

/-- Re-upserting a present key only rewrites rows of that key. -/
theorem relK_upsert_self {α κ : Type} [BEq κ] [LawfulBEq κ] (key : α → κ)
    (x : α) {l : List α} (hpres : l.any (fun y => key y == key x) = true) :
    RelK key (key x) (upsertBy key x l) l := by
  rw [upsertBy_pos key x l hpres]
  exact relK_map_self key x l

/-- Applying the same batch of upserts twice equals applying it once. -/
theorem applyUpserts_idem {α κ : Type} [BEq κ] [LawfulBEq κ] (key : α → κ)
    (xs l : List α) :
    applyUpserts key xs (applyUpserts key xs l) = applyUpserts key xs l := by
  induction xs generalizing l with
  | nil => rfl
  | cons x xs ih =>
    rw [applyUpserts_cons, applyUpserts_cons]
    have hpresX : (upsertBy key x l).any (fun y => key y == key x) = true := by
      rw [any_key_upsertBy]
      simp
    by_cases hw : ∃ z ∈ xs, key z = key x
    · have hpresY : (applyUpserts key xs (upsertBy key x l)).any
          (fun y => key y == key x) = true := by
        rw [any_key_applyUpserts]
        simp [hpresX]
      rw [relK_applyUpserts_eq key (key x) xs hw (relK_upsert_self key x hpresY)]
      exact ih (upsertBy key x l)
    · push_neg at hw
      rw [upsertBy_applyUpserts_comm key x xs (upsertBy key x l) hw hpresX]
      rw [upsertBy_same_key key x x l rfl]
      exact ih (upsertBy key x l)

theorem filter_map_comm {α : Type} (f : α → α) (q : α → Bool) (l : List α)
    (hq : ∀ a, q (f a) = q a) :
    (l.map f).filter q = (l.filter q).map f := by
  induction l with
  | nil => rfl
  | cons a l ih =>
    simp only [List.map_cons, List.filter_cons, hq a]
    cases hqa : q a with
    | true => simp [ih]
    | false => simp [ih]

theorem upsertBy_filter_comm {α κ : Type} [BEq κ] [LawfulBEq κ] (key : α → κ)
    (x : α) (q : α → Bool) (l : List α) (hqx : q x = true)
    (hq : ∀ a b, key a = key b → q a = q b) :
    upsertBy key x (l.filter q) = (upsertBy key x l).filter q := by
  cases hp : l.any (fun y => key y == key x) with
  | true =>
    have hp' : (l.filter q).any (fun y => key y == key x) = true := by
      obtain ⟨a, ha, hak⟩ := List.any_eq_true.mp hp
      have hqa : q a = true := by
        rw [hq a x (beq_iff_eq.mp hak)]
        exact hqx
      exact List.any_eq_true.mpr ⟨a, List.mem_filter.mpr ⟨ha, hqa⟩, hak⟩
    rw [upsertBy_pos key x _ hp', upsertBy_pos key x l hp]
    exact (filter_map_comm _ q l (fun a => hq _ a (key_upsert_fun key x a))).symm
  | false =>
    have hp' : (l.filter q).any (fun y => key y == key x) = false := by
      rw [List.any_eq_false]
      intro a ha
      exact List.any_eq_false.mp hp a (List.mem_filter.mp ha).1
    rw [upsertBy_of_any_eq_false key x _ hp', upsertBy_of_any_eq_false key x l hp]
    rw [List.filter_append]
    simp [hqx]

theorem applyUpserts_filter_comm {α κ : Type} [BEq κ] [LawfulBEq κ] (key : α → κ)
    (xs : List α) (q : α → Bool) (l : List α) (hqxs : ∀ x ∈ xs, q x = true)
    (hq : ∀ a b, key a = key b → q a = q b) :
    applyUpserts key xs (l.filter q) = (applyUpserts key xs l).filter q := by
  induction xs generalizing l with
  | nil => rfl
  | cons x xs ih =>
    rw [applyUpserts_cons, applyUpserts_cons]
    rw [upsertBy_filter_comm key x q l (hqxs x (List.mem_cons_self x xs)) hq]
    exact ih (upsertBy key x l) (fun w hw => hqxs w (List.mem_cons_of_mem x hw))

theorem filter_idem {α : Type} (q : α → Bool) (l : List α) :
    (l.filter q).filter q = l.filter q := by
  rw [List.filter_filter]
  exact List.filter_congr (fun a _ => Bool.and_self (q a))

/-- Applying upsert-then-prune twice equals applying it once. -/
theorem applyUpserts_filter_idem {α κ : Type} [BEq κ] [LawfulBEq κ]
    (key : α → κ) (xs : List α) (q : α → Bool) (l : List α)
    (hqxs : ∀ x ∈ xs, q x = true) (hq : ∀ a b, key a = key b → q a = q b) :
    (applyUpserts key xs ((applyUpserts key xs l).filter q)).filter q
      = (applyUpserts key xs l).filter q := by
  rw [applyUpserts_filter_comm key xs q _ hqxs hq]
  rw [applyUpserts_idem]
  rw [filter_idem]

theorem mem_upsertBy {α κ : Type} [BEq κ] (key : α → κ) (x : α) {a : α}
    {l : List α} (h : a ∈ upsertBy key x l) : a ∈ l ∨ a = x := by
  cases hp : l.any (fun y => key y == key x) with
  | true =>
    rw [upsertBy_pos key x l hp] at h
    obtain ⟨y, hy, hfy⟩ := List.mem_map.mp h
    cases hyk : (key y == key x) with
    | true =>
      right
      rw [← hfy]
      simp [hyk]
    | false =>
      left
      have : a = y := by rw [← hfy]; simp [hyk]
      rw [this]
      exact hy
  | false =>
    rw [upsertBy_of_any_eq_false key x l hp] at h
    rcases List.mem_append.mp h with h' | h'
    · exact Or.inl h'
    · exact Or.inr (by simpa using h')

theorem mem_applyUpserts {α κ : Type} [BEq κ] (key : α → κ) (xs : List α)
    {a : α} {l : List α} (h : a ∈ applyUpserts key xs l) : a ∈ l ∨ a ∈ xs := by
  induction xs generalizing l with
  | nil => exact Or.inl h
  | cons x xs ih =>
    rw [applyUpserts_cons] at h
    rcases ih h with h' | h'
    · rcases mem_upsertBy key x h' with h'' | heq
      · exact Or.inl h''
      · rw [heq]
        exact Or.inr (List.mem_cons_self x xs)
    · exact Or.inr (List.mem_cons_of_mem x h')

theorem key_mem_upsertBy {α κ : Type} [BEq κ] [LawfulBEq κ] (key : α → κ)
    (x : α) {r : α} {l : List α} (h : r ∈ upsertBy key x l)
    (hk : key r = key x) : r = x := by
  cases hp : l.any (fun y => key y == key x) with
  | true =>
    rw [upsertBy_pos key x l hp] at h
    obtain ⟨y, hy, hfy⟩ := List.mem_map.mp h
    cases hyk : (key y == key x) with
    | true => rw [← hfy]; simp [hyk]
    | false =>
      exfalso
      have hry : r = y := by rw [← hfy]; simp [hyk]
      rw [hry] at hk
      rw [beq_iff_eq.mpr hk] at hyk
      exact Bool.noConfusion hyk
  | false =>
    rw [upsertBy_of_any_eq_false key x l hp] at h
    rcases List.mem_append.mp h with h' | h'
    · exact absurd (beq_iff_eq.mpr hk) (by
        have := List.any_eq_false.mp hp r h'
        simpa using this)
    · simpa using h'

/-- Any row of the result whose key was written by the batch is one of the
written values. -/
theorem key_written_mem {α κ : Type} [BEq κ] [LawfulBEq κ] (key : α → κ)
    (k : κ) (xs : List α) (hw : ∃ x ∈ xs, key x = k) {r : α} {l : List α}
    (hr : r ∈ applyUpserts key xs l) (hk : key r = k) : r ∈ xs := by
  induction xs generalizing l with
  | nil =>
    obtain ⟨x, hx, _⟩ := hw
    cases hx
  | cons x xs ih =>
    rw [applyUpserts_cons] at hr
    by_cases hw' : ∃ z ∈ xs, key z = k
    · exact List.mem_cons_of_mem x (ih hw' hr)
    · obtain ⟨w, hwmem, hwk⟩ := hw
      have hxk : key x = k := by
        rcases List.mem_cons.mp hwmem with rfl | hmem
        · exact hwk
        · exact absurd ⟨w, hmem, hwk⟩ hw'
      rcases mem_applyUpserts key xs hr with h' | h'
      · have : r = x := key_mem_upsertBy key x h' (by rw [hk, hxk])
        rw [this]
        exact List.mem_cons_self x xs
      · exact absurd ⟨r, h', hk⟩ hw'

-- Row batches written to each table by a list of ingested songs.

def songAlbumRows (apis : List ApiSong) : List AlbumRow :=
  apis.flatMap (fun a => (a.album.map AlbumRow.ofApi).toList)

def songArtistRows (apis : List ApiSong) : List ArtistRow :=
  apis.flatMap (fun a => (a.artist.map ArtistRow.ofApi).toList)

def songGenreRows (apis : List ApiSong) : List GenreRow :=
  apis.flatMap (fun a => (a.genre.map GenreRow.ofApi).toList)

def songDirectoryRows (apis : List ApiSong) : List DirectoryRow :=
  apis.flatMap (fun a => (a.parent.map DirectoryRow.ofApi).toList)

theorem ingest_song_data_albums (s : Store) (api : ApiSong) :
    (ingest_song_data s api).albums
      = applyUpserts AlbumRow.id ((api.album.map AlbumRow.ofApi).toList) s.albums := by
  unfold ingest_song_data
  cases api.album <;> cases api.artist <;> cases api.genre <;> cases api.parent <;> rfl

theorem ingest_song_data_artists (s : Store) (api : ApiSong) :
    (ingest_song_data s api).artists
      = applyUpserts ArtistRow.id ((api.artist.map ArtistRow.ofApi).toList) s.artists := by
  unfold ingest_song_data
  cases api.album <;> cases api.artist <;> cases api.genre <;> cases api.parent <;> rfl

theorem ingest_song_data_genres (s : Store) (api : ApiSong) :
    (ingest_song_data s api).genres
      = applyUpserts GenreRow.name ((api.genre.map GenreRow.ofApi).toList) s.genres := by
  unfold ingest_song_data
  cases api.album <;> cases api.artist <;> cases api.genre <;> cases api.parent <;> rfl

theorem ingest_song_data_directories (s : Store) (api : ApiSong) :
    (ingest_song_data s api).directories
      = applyUpserts DirectoryRow.id ((api.parent.map DirectoryRow.ofApi).toList) s.directories := by
  unfold ingest_song_data
  cases api.album <;> cases api.artist <;> cases api.genre <;> cases api.parent <;> rfl

theorem foldl_ingest_cacheInfo (apis : List ApiSong) (s : Store) :
    (apis.foldl ingest_song_data s).cacheInfo = s.cacheInfo := by
  induction apis generalizing s with
  | nil => rfl
  | cons a apis ih =>
    rw [List.foldl_cons, ih, ingest_song_data_cacheInfo]

theorem foldl_ingest_playlists (apis : List ApiSong) (s : Store) :
    (apis.foldl ingest_song_data s).playlists = s.playlists := by
  induction apis generalizing s with
  | nil => rfl
  | cons a apis ih =>
    rw [List.foldl_cons, ih, ingest_song_data_playlists]

theorem foldl_ingest_coverArtFiles (apis : List ApiSong) (s : Store) :
    (apis.foldl ingest_song_data s).coverArtFiles = s.coverArtFiles := by
  induction apis generalizing s with
  | nil => rfl
  | cons a apis ih =>
    rw [List.foldl_cons, ih, ingest_song_data_coverArtFiles]

theorem foldl_ingest_musicFiles (apis : List ApiSong) (s : Store) :
    (apis.foldl ingest_song_data s).musicFiles = s.musicFiles := by
  induction apis generalizing s with
  | nil => rfl
  | cons a apis ih =>
    rw [List.foldl_cons, ih, ingest_song_data_musicFiles]

theorem foldl_ingest_albums (apis : List ApiSong) (s : Store) :
    (apis.foldl ingest_song_data s).albums
      = applyUpserts AlbumRow.id (songAlbumRows apis) s.albums := by
  induction apis generalizing s with
  | nil => rfl
  | cons a apis ih =>
    rw [List.foldl_cons, ih, ingest_song_data_albums, ← applyUpserts_append]
    rfl

theorem foldl_ingest_artists (apis : List ApiSong) (s : Store) :
    (apis.foldl ingest_song_data s).artists
      = applyUpserts ArtistRow.id (songArtistRows apis) s.artists := by
  induction apis generalizing s with
  | nil => rfl
  | cons a apis ih =>
    rw [List.foldl_cons, ih, ingest_song_data_artists, ← applyUpserts_append]
    rfl

theorem foldl_ingest_genres (apis : List ApiSong) (s : Store) :
    (apis.foldl ingest_song_data s).genres
      = applyUpserts GenreRow.name (songGenreRows apis) s.genres := by
  induction apis generalizing s with
  | nil => rfl
  | cons a apis ih =>
    rw [List.foldl_cons, ih, ingest_song_data_genres, ← applyUpserts_append]
    rfl

theorem foldl_ingest_directories (apis : List ApiSong) (s : Store) :
    (apis.foldl ingest_song_data s).directories
      = applyUpserts DirectoryRow.id (songDirectoryRows apis) s.directories := by
  induction apis generalizing s with
  | nil => rfl
  | cons a apis ih =>
    rw [List.foldl_cons, ih, ingest_song_data_directories, ← applyUpserts_append]
    rfl

theorem foldl_ingest_songs (apis : List ApiSong) (s : Store) :
    (apis.foldl ingest_song_data s).songs
      = applyUpserts SongRow.id (apis.map SongRow.ofApi) s.songs := by
  induction apis generalizing s with
  | nil => rfl
  | cons a apis ih =>
    rw [List.foldl_cons, ih, ingest_song_data_songs]
    rfl

-- Closed forms of ingest_new_data, one per (data key, payload shape).

theorem ingest_playlists_eq (ps : List ApiPlaylist) (params : List String)
    (t : Nat) (s : Store) :
    ingest_new_data .PLAYLISTS params (.playlists ps) t s
      = ({ s with
            cacheInfo := upsertBy ciKey ⟨.PLAYLISTS, params_hash params, t⟩ s.cacheInfo
            playlists := (applyUpserts PlaylistRow.id (ps.map PlaylistRow.ofApi)
                s.playlists).filter (fun r => ps.any (fun p => p.id == r.id)) }, none) := rfl

theorem ingest_genres_eq (gs : List ApiGenre) (params : List String)
    (t : Nat) (s : Store) :
    ingest_new_data .GENRES params (.genres gs) t s
      = ({ s with
            cacheInfo := upsertBy ciKey ⟨.GENRES, params_hash params, t⟩ s.cacheInfo
            genres := (applyUpserts GenreRow.name (gs.map GenreRow.ofApi)
                s.genres).filter (fun r => gs.any (fun g => g.name == r.name)) }, none) := rfl

theorem ingest_cover_art_eq (c : String) (params : List String)
    (t : Nat) (s : Store) :
    ingest_new_data .COVER_ART_FILE params (.coverArtFile c) t s
      = ({ s with
            cacheInfo := upsertBy ciKey ⟨.COVER_ART_FILE, params_hash params, t⟩ s.cacheInfo
            coverArtFiles := upsertBy Prod.fst (params_hash params, c)
              s.coverArtFiles }, none) := rfl

theorem ingest_song_details_eq (api : ApiSong) (params : List String)
    (t : Nat) (s : Store) :
    ingest_new_data .SONG_DETAILS params (.songDetails api) t s
      = ({ s with
            cacheInfo := upsertBy ciKey ⟨.SONG_DETAILS, params_hash params, t⟩ s.cacheInfo
            albums := applyUpserts AlbumRow.id
              ((api.album.map AlbumRow.ofApi).toList) s.albums
            artists := applyUpserts ArtistRow.id
              ((api.artist.map ArtistRow.ofApi).toList) s.artists
            genres := applyUpserts GenreRow.name
              ((api.genre.map GenreRow.ofApi).toList) s.genres
            directories := applyUpserts DirectoryRow.id
              ((api.parent.map DirectoryRow.ofApi).toList) s.directories
            songs := upsertBy SongRow.id (SongRow.ofApi api) s.songs }, none) := by
  rcases api with ⟨i, ti, pa, ca, alb, art, gen, par⟩
  cases alb <;> cases art <;> cases gen <;> cases par <;> rfl

theorem ingest_playlist_details_eq (pd : ApiPlaylistDetails) (params : List String)
    (t : Nat) (s : Store) :
    ingest_new_data .PLAYLIST_DETAILS params (.playlistDetails pd) t s
      = ({ s with
            cacheInfo := upsertBy ciKey ⟨.PLAYLIST_DETAILS, params_hash params, t⟩ s.cacheInfo
            albums := applyUpserts AlbumRow.id (songAlbumRows pd.songs) s.albums
            artists := applyUpserts ArtistRow.id (songArtistRows pd.songs) s.artists
            genres := applyUpserts GenreRow.name (songGenreRows pd.songs) s.genres
            directories := applyUpserts DirectoryRow.id
              (songDirectoryRows pd.songs) s.directories
            songs := applyUpserts SongRow.id (pd.songs.map SongRow.ofApi) s.songs
            playlists := upsertBy PlaylistRow.id (PlaylistRow.ofApiDetails pd)
              s.playlists }, none) := by
  have h1 : (ingest_new_data .PLAYLIST_DETAILS params (.playlistDetails pd) t s).1
      = { (pd.songs.foldl ingest_song_data
            { s with cacheInfo :=
                upsertBy ciKey ⟨.PLAYLIST_DETAILS, params_hash params, t⟩ s.cacheInfo }) with
          playlists := upsertBy PlaylistRow.id (PlaylistRow.ofApiDetails pd)
            (pd.songs.foldl ingest_song_data
              { s with cacheInfo :=
                  upsertBy ciKey ⟨.PLAYLIST_DETAILS, params_hash params, t⟩ s.cacheInfo }).playlists } := rfl
  have h2 : (ingest_new_data .PLAYLIST_DETAILS params (.playlistDetails pd) t s).2 = none := rfl
  refine Prod.ext ?_ h2
  rw [h1]
  refine Store.ext ?_ ?_ ?_ ?_ ?_ ?_ ?_ ?_ ?_
  · rw [foldl_ingest_cacheInfo]
  · rw [foldl_ingest_songs]
  · rw [foldl_ingest_albums]
  · rw [foldl_ingest_artists]
  · rw [foldl_ingest_genres]
  · rw [foldl_ingest_directories]
  · rw [foldl_ingest_playlists]
  · rw [foldl_ingest_coverArtFiles]
  · rw [foldl_ingest_musicFiles]

-- Per-key idempotency of ingest_new_data.

theorem ingest_playlists_idem (ps : List ApiPlaylist) (params : List String)
    (t₁ t₂ : Nat) (s : Store) :
    ingest_new_data .PLAYLISTS params (.playlists ps) t₂
        (ingest_new_data .PLAYLISTS params (.playlists ps) t₁ s).1
      = ingest_new_data .PLAYLISTS params (.playlists ps) t₂ s := by
  rw [ingest_playlists_eq, ingest_playlists_eq, ingest_playlists_eq]
  refine Prod.ext ?_ rfl
  refine Store.ext ?_ rfl rfl rfl rfl rfl ?_ rfl rfl
  · exact upsertBy_same_key ciKey _ _ _ rfl
  · exact applyUpserts_filter_idem PlaylistRow.id (ps.map PlaylistRow.ofApi)
      (fun r => ps.any (fun p => p.id == r.id)) s.playlists
      (by
        intro x hx
        obtain ⟨p, hp, rfl⟩ := List.mem_map.mp hx
        exact List.any_eq_true.mpr ⟨p, hp, by simp [PlaylistRow.ofApi]⟩)
      (by
        intro a b hab
        simp only [hab])

theorem ingest_genres_idem (gs : List ApiGenre) (params : List String)
    (t₁ t₂ : Nat) (s : Store) :
    ingest_new_data .GENRES params (.genres gs) t₂
        (ingest_new_data .GENRES params (.genres gs) t₁ s).1
      = ingest_new_data .GENRES params (.genres gs) t₂ s := by
  rw [ingest_genres_eq, ingest_genres_eq, ingest_genres_eq]
  refine Prod.ext ?_ rfl
  refine Store.ext ?_ rfl rfl rfl ?_ rfl rfl rfl rfl
  · exact upsertBy_same_key ciKey _ _ _ rfl
  · exact applyUpserts_filter_idem GenreRow.name (gs.map GenreRow.ofApi)
      (fun r => gs.any (fun g => g.name == r.name)) s.genres
      (by
        intro x hx
        obtain ⟨g, hg, rfl⟩ := List.mem_map.mp hx
        exact List.any_eq_true.mpr ⟨g, hg, by simp [GenreRow.ofApi]⟩)
      (by
        intro a b hab
        simp only [hab])

theorem ingest_cover_art_idem (c : String) (params : List String)
    (t₁ t₂ : Nat) (s : Store) :
    ingest_new_data .COVER_ART_FILE params (.coverArtFile c) t₂
        (ingest_new_data .COVER_ART_FILE params (.coverArtFile c) t₁ s).1
      = ingest_new_data .COVER_ART_FILE params (.coverArtFile c) t₂ s := by
  rw [ingest_cover_art_eq, ingest_cover_art_eq, ingest_cover_art_eq]
  refine Prod.ext ?_ rfl
  refine Store.ext ?_ rfl rfl rfl rfl rfl rfl ?_ rfl
  · exact upsertBy_same_key ciKey _ _ _ rfl
  · exact upsertBy_same_key Prod.fst _ _ _ rfl

theorem ingest_song_details_idem (api : ApiSong) (params : List String)
    (t₁ t₂ : Nat) (s : Store) :
    ingest_new_data .SONG_DETAILS params (.songDetails api) t₂
        (ingest_new_data .SONG_DETAILS params (.songDetails api) t₁ s).1
      = ingest_new_data .SONG_DETAILS params (.songDetails api) t₂ s := by
  rw [ingest_song_details_eq, ingest_song_details_eq, ingest_song_details_eq]
  refine Prod.ext ?_ rfl
  refine Store.ext ?_ ?_ ?_ ?_ ?_ ?_ rfl rfl rfl
  · exact upsertBy_same_key ciKey _ _ _ rfl
  · exact upsertBy_same_key SongRow.id _ _ _ rfl
  · exact applyUpserts_idem AlbumRow.id _ _
  · exact applyUpserts_idem ArtistRow.id _ _
  · exact applyUpserts_idem GenreRow.name _ _
  · exact applyUpserts_idem DirectoryRow.id _ _

theorem ingest_playlist_details_idem (pd : ApiPlaylistDetails)
    (params : List String) (t₁ t₂ : Nat) (s : Store) :
    ingest_new_data .PLAYLIST_DETAILS params (.playlistDetails pd) t₂
        (ingest_new_data .PLAYLIST_DETAILS params (.playlistDetails pd) t₁ s).1
      = ingest_new_data .PLAYLIST_DETAILS params (.playlistDetails pd) t₂ s := by
  rw [ingest_playlist_details_eq, ingest_playlist_details_eq,
    ingest_playlist_details_eq]
  refine Prod.ext ?_ rfl
  refine Store.ext ?_ ?_ ?_ ?_ ?_ ?_ ?_ rfl rfl
  · exact upsertBy_same_key ciKey _ _ _ rfl
  · exact applyUpserts_idem SongRow.id _ _
  · exact applyUpserts_idem AlbumRow.id _ _
  · exact applyUpserts_idem ArtistRow.id _ _
  · exact applyUpserts_idem GenreRow.name _ _
  · exact applyUpserts_idem DirectoryRow.id _ _
  · exact upsertBy_same_key PlaylistRow.id _ _ _ rfl

theorem ingest_song_file_idem (c : String) (params : List String)
    (t₁ t₂ : Nat) (s : Store) :
    ingest_new_data .SONG_FILE params (.songFile c) t₂
        (ingest_new_data .SONG_FILE params (.songFile c) t₁ s).1
      = ingest_new_data .SONG_FILE params (.songFile c) t₂ s := by
  cases params with
  | nil => rfl
  | cons p0 rest =>
    cases hf : s.songs.find? (fun r => r.id == p0) with
    | none =>
      have h1 : ingest_new_data .SONG_FILE (p0 :: rest) (.songFile c) t₁ s
          = (s, some (.songDoesNotExist p0)) := by
        simp [ingest_new_data, _do_ingest_new_data, hf]
      rw [h1]
    | some song =>
      have h2 : ∀ (t : Nat) (s' : Store),
          s'.songs.find? (fun r => r.id == p0) = some song →
          ingest_new_data .SONG_FILE (p0 :: rest) (.songFile c) t s'
            = ({ s' with
                  cacheInfo := upsertBy ciKey
                    ⟨.SONG_FILE, params_hash (p0 :: rest), t⟩ s'.cacheInfo
                  musicFiles := upsertBy Prod.fst (song.path, c) s'.musicFiles }, none) := by
        intro t s' hf'
        simp [ingest_new_data, _do_ingest_new_data, hf']
      rw [h2 t₁ s hf]
      show ingest_new_data .SONG_FILE (p0 :: rest) (.songFile c) t₂
          { s with
            cacheInfo := upsertBy ciKey
              ⟨.SONG_FILE, params_hash (p0 :: rest), t₁⟩ s.cacheInfo
            musicFiles := upsertBy Prod.fst (song.path, c) s.musicFiles }
        = ingest_new_data .SONG_FILE (p0 :: rest) (.songFile c) t₂ s
      rw [h2 t₂ { s with
            cacheInfo := upsertBy ciKey
              ⟨.SONG_FILE, params_hash (p0 :: rest), t₁⟩ s.cacheInfo
            musicFiles := upsertBy Prod.fst (song.path, c) s.musicFiles } hf]
      rw [h2 t₂ s hf]
      refine Prod.ext ?_ rfl
      refine Store.ext ?_ rfl rfl rfl rfl rfl rfl rfl ?_
      · exact upsertBy_same_key ciKey _ _ _ rfl
      · exact upsertBy_same_key Prod.fst _ _ _ rfl

/-- C3: for every operation key, parameter tuple and payload, ingesting the
same data twice leaves the store in the same state as ingesting it once, with
only the CacheInfo last_ingestion_time reflecting the later call (both sides
carry the later time t₂). -/
theorem ingest_new_data_idempotent (k : CachedDataKey) (params : List String)
    (d : IngestData) (t₁ t₂ : Nat) (s : Store) :
    ingest_new_data k params d t₂ (ingest_new_data k params d t₁ s).1
      = ingest_new_data k params d t₂ s := by
  cases k with
  | PLAYLISTS =>
    cases d with
    | playlists ps => exact ingest_playlists_idem ps params t₁ t₂ s
    | playlistDetails pd => rfl
    | coverArtFile c => rfl
    | songFile c => rfl
    | songDetails api => rfl
    | genres gs => rfl
  | PLAYLIST_DETAILS =>
    cases d with
    | playlists ps => rfl
    | playlistDetails pd => exact ingest_playlist_details_idem pd params t₁ t₂ s
    | coverArtFile c => rfl
    | songFile c => rfl
    | songDetails api => rfl
    | genres gs => rfl
  | COVER_ART_FILE =>
    cases d with
    | playlists ps => rfl
    | playlistDetails pd => rfl
    | coverArtFile c => exact ingest_cover_art_idem c params t₁ t₂ s
    | songFile c => rfl
    | songDetails api => rfl
    | genres gs => rfl
  | SONG_FILE =>
    cases d with
    | playlists ps => rfl
    | playlistDetails pd => rfl
    | coverArtFile c => rfl
    | songFile c => exact ingest_song_file_idem c params t₁ t₂ s
    | songDetails api => rfl
    | genres gs => rfl
  | SONG_DETAILS =>
    cases d with
    | playlists ps => rfl
    | playlistDetails pd => rfl
    | coverArtFile c => rfl
    | songFile c => rfl
    | songDetails api => exact ingest_song_details_idem api params t₁ t₂ s
    | genres gs => rfl
  | GENRES =>
    cases d with
    | playlists ps => rfl
    | playlistDetails pd => rfl
    | coverArtFile c => rfl
    | songFile c => rfl
    | songDetails api => rfl
    | genres gs => exact ingest_genres_idem gs params t₁ t₂ s

/-- C3 witness: a concrete double ingestion of song details equals the single
later ingestion. -/
theorem ingest_new_data_idempotent_witness :
    ingest_new_data .SONG_DETAILS ["s1"]
        (.songDetails ⟨"s1", "T", "p1", some "c1", some ⟨"al1", "Album"⟩,
          some ⟨"ar1", "Artist"⟩, some ⟨"Rock"⟩, some ⟨"d1", "dir"⟩⟩) 9
        (ingest_new_data .SONG_DETAILS ["s1"]
          (.songDetails ⟨"s1", "T", "p1", some "c1", some ⟨"al1", "Album"⟩,
            some ⟨"ar1", "Artist"⟩, some ⟨"Rock"⟩, some ⟨"d1", "dir"⟩⟩) 4 emptyStore).1
      = ingest_new_data .SONG_DETAILS ["s1"]
          (.songDetails ⟨"s1", "T", "p1", some "c1", some ⟨"al1", "Album"⟩,
            some ⟨"ar1", "Artist"⟩, some ⟨"Rock"⟩, some ⟨"d1", "dir"⟩⟩) 9 emptyStore :=
  ingest_new_data_idempotent .SONG_DETAILS ["s1"]
    (.songDetails ⟨"s1", "T", "p1", some "c1", some ⟨"al1", "Album"⟩,
      some ⟨"ar1", "Artist"⟩, some ⟨"Rock"⟩, some ⟨"d1", "dir"⟩⟩) 4 9 emptyStore

-- ================================================================
-- C4
-- ================================================================

/-- C4: for every prior store state, after ingest_new_data(PLAYLISTS, (), L)
the persisted Playlist rows are exactly the playlists of L: every surviving
row carries the field values of some playlist in L (so every previously
stored playlist whose id is not in L is pruned), and every playlist of L has
a persisted row with its id. -/
theorem ingest_playlists_full_replace (s : Store) (L : List ApiPlaylist) (t : Nat) :
    (∀ r ∈ (ingest_new_data .PLAYLISTS [] (.playlists L) t s).1.playlists,
        ∃ p ∈ L, r.id = p.id ∧ r.name = p.name ∧ r.cover_art = p.cover_art) ∧
    (∀ p ∈ L, ∃ r ∈ (ingest_new_data .PLAYLISTS [] (.playlists L) t s).1.playlists,
        r.id = p.id) := by
  have heq : (ingest_new_data .PLAYLISTS [] (.playlists L) t s).1.playlists
      = (applyUpserts PlaylistRow.id (L.map PlaylistRow.ofApi) s.playlists).filter
          (fun r => L.any (fun p => p.id == r.id)) := by
    rw [ingest_playlists_eq]
  constructor
  · intro r hr
    rw [heq] at hr
    obtain ⟨hrA, hq⟩ := List.mem_filter.mp hr
    obtain ⟨p, hp, hpid⟩ := List.any_eq_true.mp hq
    have hw : ∃ x ∈ L.map PlaylistRow.ofApi, PlaylistRow.id x = r.id :=
      ⟨PlaylistRow.ofApi p, List.mem_map_of_mem _ hp, beq_iff_eq.mp hpid⟩
    have hrmem : r ∈ L.map PlaylistRow.ofApi :=
      key_written_mem PlaylistRow.id r.id _ hw hrA rfl
    obtain ⟨p', hp', hofp⟩ := List.mem_map.mp hrmem
    refine ⟨p', hp', ?_, ?_, ?_⟩ <;> rw [← hofp] <;> rfl
  · intro p hp
    have hpres : (applyUpserts PlaylistRow.id (L.map PlaylistRow.ofApi)
        s.playlists).any (fun y => PlaylistRow.id y == p.id) = true := by
      rw [any_key_applyUpserts]
      have hL : (L.map PlaylistRow.ofApi).any
          (fun x => PlaylistRow.id x == p.id) = true :=
        List.any_eq_true.mpr
          ⟨PlaylistRow.ofApi p, List.mem_map_of_mem _ hp, by simp [PlaylistRow.ofApi]⟩
      simp [hL]
    obtain ⟨r, hrA, hrid⟩ := List.any_eq_true.mp hpres
    have hq : (L.any (fun p' => p'.id == r.id)) = true :=
      List.any_eq_true.mpr ⟨p, hp, by
        rw [beq_iff_eq] at hrid ⊢
        exact hrid.symm⟩
    refine ⟨r, ?_, beq_iff_eq.mp hrid⟩
    rw [heq]
    exact List.mem_filter.mpr ⟨hrA, hq⟩

def c4store : Store :=
  { emptyStore with playlists := [⟨"A", "Alpha", none, []⟩, ⟨"B", "Beta", none, []⟩] }

def c4L : List ApiPlaylist := [⟨"B", "Beta2", none⟩, ⟨"C", "Gamma", none⟩]

/-- C4 witness: ingesting {B, C} over a store holding {A, B}: the surviving
row B matches a playlist of the new set, and C got persisted. -/
theorem ingest_playlists_full_replace_witness :
    (∃ p ∈ c4L, (⟨"B", "Beta2", none, []⟩ : PlaylistRow).id = p.id ∧
        (⟨"B", "Beta2", none, []⟩ : PlaylistRow).name = p.name ∧
        (⟨"B", "Beta2", none, []⟩ : PlaylistRow).cover_art = p.cover_art) ∧
    (∃ r ∈ (ingest_new_data .PLAYLISTS [] (.playlists c4L) 5 c4store).1.playlists,
        r.id = "C") :=
  ⟨(ingest_playlists_full_replace c4store c4L 5).1 ⟨"B", "Beta2", none, []⟩ (by decide),
   (ingest_playlists_full_replace c4store c4L 5).2 ⟨"C", "Gamma", none⟩ (by decide)⟩

end SublimeFS
